import Mathlib

/-!
Verification of `src/path.rs` from the wasm-source-map repository.

Strings are embedded as `List Char`. The Rust code iterates `p.bytes()` but
compares only against ASCII byte values (`/`, `A`..`Z`, `a`..`z`, `:`, `\`);
in UTF-8 an ASCII byte value occurs exactly at an ASCII character, and a
multi-byte character's bytes are all `>= 0x80`, so the byte-level tests of the
source coincide with the character-level definitions below.

`Cow<'a, str>` is embedded as a two-constructor inductive carrying the text it
denotes (for `Borrowed` the referenced text, which the borrow checker keeps
immutable while the borrow lives; for `Owned` the private buffer). The
`assert!` in `Path::new` is modelled by `Option` (`none` = panic), and the
`unsafe get_unchecked` slice in `strip_prefix` by an inner `Option` whose
out-of-bounds case is surfaced as an outer `none` (= undefined behavior).
-/

namespace Wsm

/-- Rust `str::starts_with(char)`: the first character equals `c`. -/
def startsWithChar (s : List Char) (c : Char) : Bool :=
  match s with
  | [] => false
  | a :: _ => a = c

/-- Rust `str::ends_with(char)` / `String::ends_with(char)`: the last character equals `c`. -/
def endsWithChar (s : List Char) (c : Char) : Bool :=
  match s.getLast? with
  | some a => a = c
  | none => false

/-- ASCII letter test, mirroring the byte range patterns in the source. -/
def isAsciiAlpha (c : Char) : Bool :=
  ('A' ≤ c && c ≤ 'Z') || ('a' ≤ c && c ≤ 'z')

/-- Embeds `fn is_absolute(p: &str) -> bool` from `src/path.rs` lines 7-22.
The source takes the first byte: `/` means Unix absolute; an ASCII letter
followed by the byte `:` means a Windows drive path; `\` followed by `\`
means a Windows UNC path; anything else (including the empty string) is not
absolute. -/
def is_absolute (p : List Char) : Bool :=
  match p with
  | [] => false
  | b :: rest =>
    if b = '/' then true
    else if isAsciiAlpha b then
      match rest with
      | c :: _ => c = ':'
      | [] => false
    else if b = '\\' then
      match rest with
      | c :: _ => c = '\\'
      | [] => false
    else false

/-- Rust `str::get_unchecked(i..)`: the suffix from byte/character index `i`.
`none` models the undefined behavior of an out-of-bounds unchecked slice. -/
def getUnchecked (s : List Char) (i : Nat) : Option (List Char) :=
  if i ≤ s.length then some (s.drop i) else none

/-- Embeds `fn strip_prefix` from `src/path.rs` lines 24-30 (the name is
slightly shortened for Lean). If `p` starts with `pre`, the source returns
`Some` of the unchecked slice after `pre`; otherwise `None`. The outer
`Option` layer models the unsafe slice: outer `none` = undefined behavior,
`some r` = the function returns `r`. -/
def stripPfx (p pre : List Char) : Option (Option (List Char)) :=
  if List.isPrefixOf pre p then
    match getUnchecked p pre.length with
    | some r => some (some r)
    | none => none
  else
    some none

/-- Embeds `Cow<'a, str>`: a borrowed view of text owned elsewhere, or a
private owned buffer. Each constructor carries the text the value denotes. -/
inductive Cow where
  | borrowed (s : List Char) : Cow
  | owned (s : List Char) : Cow
deriving DecidableEq

/-- Dereferencing a `Cow`: the text it denotes. -/
def Cow.read : Cow → List Char
  | .borrowed s => s
  | .owned s => s

/-- Embeds `pub struct Path<'a>(Cow<'a, str>)`. -/
structure Path where
  cow : Cow
deriving DecidableEq

/-- The text currently held by the `Path` (dereference of its `Cow`). -/
def Path.read (p : Path) : List Char :=
  p.cow.read

/-- Embeds `Path::new` (`src/path.rs` lines 35-38): `assert!(is_absolute(&s))`
then store `s` unchanged. `none` models the panic of a failed assertion. -/
def Path.new (s : Cow) : Option Path :=
  if is_absolute s.read then some ⟨s⟩ else none

/-- The separator-insertion step of `Path::push` (`src/path.rs` lines 44-55):
pick the style from the buffer's first character and append the style's
separator unless the buffer already ends with it. -/
def pushSep (p1 : List Char) : List Char :=
  if startsWithChar p1 '/' then
    if endsWithChar p1 '/' then p1 else p1 ++ ['/']
  else
    if endsWithChar p1 '\\' then p1 else p1 ++ ['\\']

/-- Embeds `Path::push` (`src/path.rs` lines 40-58). An absolute segment
replaces the `Cow` wholesale (`self.0 = p2`); otherwise `to_mut` yields an
owned buffer (cloning a borrowed view), the separator is inserted by need and
the segment is appended verbatim, leaving an owned `Cow`. -/
def Path.push (p : Path) (p2 : Cow) : Path :=
  if is_absolute p2.read then ⟨p2⟩
  else ⟨Cow.owned (pushSep p.cow.read ++ p2.read)⟩

/-- Embeds `Path::borrow` (`src/path.rs` lines 60-62):
`Path(Cow::Borrowed(&self.0))`, a read-only alias of the current text. -/
def Path.borrow (p : Path) : Path :=
  ⟨Cow.borrowed p.cow.read⟩

/-- The literal characters of the string `"/rustc/"`. -/
def rustcPfx : List Char := ['/', 'r', 'u', 's', 't', 'c', '/']

/-- The literal characters of
`"https://raw.githubusercontent.com/rust-lang/rust/"`. -/
def githubBase : List Char :=
  ['h', 't', 't', 'p', 's', ':', '/', '/', 'r', 'a', 'w', '.',
   'g', 'i', 't', 'h', 'u', 'b', 'u', 's', 'e', 'r', 'c', 'o', 'n',
   't', 'e', 'n', 't', '.', 'c', 'o', 'm', '/', 'r', 'u', 's', 't',
   '-', 'l', 'a', 'n', 'g', '/', 'r', 'u', 's', 't', '/']

/-- The literal characters of `"file://"`. -/
def fileTwoSlash : List Char := ['f', 'i', 'l', 'e', ':', '/', '/']

/-- The literal characters of `"file:///"`. -/
def fileThreeSlash : List Char := ['f', 'i', 'l', 'e', ':', '/', '/', '/']

/-- Embeds `Path::to_uri` (`src/path.rs` lines 64-78). The outer `Option`
propagates the (never-reached) undefined-behavior case of the unchecked slice
inside `strip_prefix`; each `format!` concatenates verbatim. -/
def Path.to_uri (p : Path) : Option (List Char) :=
  match stripPfx p.read rustcPfx with
  | none => none
  | some (some rest) => some (githubBase ++ rest)
  | some none =>
    if startsWithChar p.read '/' then some (fileTwoSlash ++ p.read)
    else some (fileThreeSlash ++ p.read)

/-- World with an original `Path` and an alias of it; pushing on the original
in state-passing style, leaving the alias component untouched, mirrors a
mutation of the original while the alias is held elsewhere. -/
def pushFst (pr : Path × Path) (seg : Cow) : Path × Path :=
  (Path.push pr.1 seg, pr.2)

/-! Helper lemmas shared by the claim proofs below. -/

/-- Characterization of `is_absolute` by the shape of the string. -/
theorem absolute_iff (s : List Char) :
    is_absolute s = true ↔
      (∃ t, s = '/' :: t) ∨
      (∃ c t, s = c :: ':' :: t ∧ isAsciiAlpha c = true) ∨
      (∃ t, s = '\\' :: '\\' :: t) := by
  cases s with
  | nil => simp [is_absolute]
  | cons b rest =>
    by_cases hb : b = '/'
    · subst hb; simp [is_absolute]
    · by_cases ha : isAsciiAlpha b = true
      · cases rest with
        | nil => simp [is_absolute, hb, ha]
        | cons c t =>
          by_cases hc : c = ':'
          · subst hc; simp [is_absolute, hb, ha]
          · have hbs : b ≠ '\\' := by
              intro hb2; rw [hb2] at ha; exact absurd ha (by decide)
            simp [is_absolute, hb, ha, hc, hbs]
      · by_cases hbs : b = '\\'
        · subst hbs
          cases rest with
          | nil => simp [is_absolute, ha]
          | cons c t =>
            by_cases hc : c = '\\'
            · subst hc; simp [is_absolute, ha]
            · simp [is_absolute, ha, hc]
        · cases rest with
          | nil => simp [is_absolute, hb, ha, hbs]
          | cons c t => simp [is_absolute, hb, ha, hbs]

/-- Appending on the right preserves absoluteness: the classifying one or two
leading characters are untouched. -/
theorem is_absolute_append (s t : List Char) (h : is_absolute s = true) :
    is_absolute (s ++ t) = true := by
  rw [absolute_iff] at h ⊢
  rcases h with ⟨u, rfl⟩ | ⟨c, u, rfl, hc⟩ | ⟨u, rfl⟩
  · exact Or.inl ⟨u ++ t, rfl⟩
  · exact Or.inr (Or.inl ⟨c, u ++ t, rfl, hc⟩)
  · exact Or.inr (Or.inr ⟨u ++ t, rfl⟩)

/-- When the input does start with the sought text, the unchecked slice is in
bounds and `stripPfx` returns the suffix after it. -/
theorem stripPfx_pos (p pre : List Char) (h : List.isPrefixOf pre p = true) :
    stripPfx p pre = some (some (List.drop pre.length p)) := by
  have hle : pre.length ≤ p.length :=
    (List.isPrefixOf_iff_prefix.mp h).length_le
  simp [stripPfx, h, getUnchecked, hle]

/-- When the input does not start with the sought text, `stripPfx` returns the
source's `None` (no undefined behavior either). -/
theorem stripPfx_neg (p pre : List Char) (h : List.isPrefixOf pre p = false) :
    stripPfx p pre = some none := by
  simp [stripPfx, h]

/-- `stripPfx` never hits the undefined-behavior case. -/
theorem stripPfx_ne_none (p pre : List Char) : stripPfx p pre ≠ none := by
  by_cases h : List.isPrefixOf pre p = true
  · rw [stripPfx_pos p pre h]; simp
  · rw [stripPfx_neg p pre (eq_false_of_ne_true h)]; simp

/-- Reading the result of a relative push: separator by need, then the
segment verbatim. -/
theorem push_read_rel (p : Path) (seg : Cow) (h : is_absolute seg.read = false) :
    (Path.push p seg).read = pushSep p.read ++ seg.read := by
  unfold Path.push
  rw [if_neg (by simp [h])]
  rfl

/-- The buffer of a path whose text starts with `"/rustc/"` maps to the
hardcoded GitHub base plus the text after the first 7 characters. -/
theorem to_uri_rustc (p : Path) (h : List.isPrefixOf rustcPfx p.read = true) :
    Path.to_uri p = some (githubBase ++ List.drop 7 p.read) := by
  have heq : stripPfx p.read rustcPfx = some (some (List.drop 7 p.read)) :=
    stripPfx_pos p.read rustcPfx h
  unfold Path.to_uri
  split
  · next hnone => rw [hnone] at heq; cases heq
  · next rest hsome =>
    rw [hsome] at heq
    obtain rfl : rest = List.drop 7 p.read := by
      cases heq; rfl
    rfl
  · next hsn => rw [hsn] at heq; cases heq

/-- The buffer of a path whose text does not start with `"/rustc/"` maps to a
`file:` URI picked by the leading character. -/
theorem to_uri_not_rustc (p : Path) (h : List.isPrefixOf rustcPfx p.read = false) :
    Path.to_uri p =
      (if startsWithChar p.read '/' then some (fileTwoSlash ++ p.read)
       else some (fileThreeSlash ++ p.read)) := by
  have heq : stripPfx p.read rustcPfx = some none := stripPfx_neg p.read rustcPfx h
  unfold Path.to_uri
  split
  · next hnone => rw [hnone] at heq; cases heq
  · next rest hsome => rw [hsome] at heq; cases heq
  · next hsn => rfl

/-- A string with `"/rustc/"` as a leading piece starts with `'/'`. -/
theorem startsWithChar_of_rustc (s : List Char)
    (h : List.isPrefixOf rustcPfx s = true) : startsWithChar s '/' = true := by
  obtain ⟨t, ht⟩ := List.isPrefixOf_iff_prefix.mp h
  rw [← ht]; rfl

/-- `Path.push` preserves absoluteness of the buffer. -/
theorem push_preserves_absolute (p : Path) (seg : Cow)
    (h : is_absolute p.read = true) :
    is_absolute (Path.push p seg).read = true := by
  by_cases hs : is_absolute seg.read = true
  · unfold Path.push
    rw [if_pos hs]
    exact hs
  · rw [push_read_rel p seg (eq_false_of_ne_true hs)]
    apply is_absolute_append
    unfold pushSep
    split
    · split
      · exact h
      · exact is_absolute_append _ _ h
    · split
      · exact h
      · exact is_absolute_append _ _ h

/-- `Path.to_uri` always returns a string: the undefined-behavior case of the
unchecked slice is unreachable. -/
theorem to_uri_total (p : Path) : ∃ u, Path.to_uri p = some u := by
  unfold Path.to_uri
  split
  · next hnone => exact absurd hnone (stripPfx_ne_none _ _)
  · next rest hsome => exact ⟨_, rfl⟩
  · next hsn =>
    by_cases hst : startsWithChar p.read '/' = true
    · rw [if_pos hst]; exact ⟨_, rfl⟩
    · rw [if_neg hst]; exact ⟨_, rfl⟩


/-! Claim theorems. -/

/-- Claim C1: for a segment that is not absolute, `Path.push` picks the
separator by the buffer's first character (`'/'` if the buffer starts with
`'/'`, `'\\'` otherwise), appends one separator only when the buffer does not
already end with it, and then appends the segment verbatim, so the resulting
buffer is old-buffer ++ (separator if needed) ++ segment with no separator
doubled at the junction. -/
theorem push_relative_appends (p : Path) (seg : Cow)
    (h : is_absolute seg.read = false) :
    (Path.push p seg).read =
      (if startsWithChar p.read '/' then
        (if endsWithChar p.read '/' then p.read else p.read ++ ['/'])
      else
        (if endsWithChar p.read '\\' then p.read else p.read ++ ['\\'])) ++
        seg.read := by
  rw [push_read_rel p seg h]
  rfl

/-- Witness for claim C1 at the buffer `"/e"` and the segment `"p"`. -/
theorem push_relative_appends_witness :
    is_absolute (Cow.read (Cow.owned ['p'])) = false ∧
    (Path.push ⟨Cow.owned ['/', 'e']⟩ (Cow.owned ['p'])).read =
      (if startsWithChar (Path.read ⟨Cow.owned ['/', 'e']⟩) '/' then
        (if endsWithChar (Path.read ⟨Cow.owned ['/', 'e']⟩) '/' then
          Path.read ⟨Cow.owned ['/', 'e']⟩
        else Path.read ⟨Cow.owned ['/', 'e']⟩ ++ ['/'])
      else
        (if endsWithChar (Path.read ⟨Cow.owned ['/', 'e']⟩) '\\' then
          Path.read ⟨Cow.owned ['/', 'e']⟩
        else Path.read ⟨Cow.owned ['/', 'e']⟩ ++ ['\\'])) ++
        Cow.read (Cow.owned ['p']) :=
  ⟨by decide,
   push_relative_appends ⟨Cow.owned ['/', 'e']⟩ (Cow.owned ['p']) (by decide)⟩

/-- Claim C2: `Path.to_uri` is a pure function of the buffer with three cases:
a buffer starting with `"/rustc/"` maps to the GitHub base plus the remainder
(this branch takes precedence over the generic `'/'` branch), any other buffer
starting with `'/'` maps to `"file://"` plus the buffer, and a buffer not
starting with `'/'` maps to `"file:///"` plus the buffer; concatenation is
verbatim, with no escaping. -/
theorem to_uri_cases (p : Path) :
    (∀ rest, Path.read p = rustcPfx ++ rest →
      Path.to_uri p = some (githubBase ++ rest)) ∧
    ((¬ ∃ rest, Path.read p = rustcPfx ++ rest) →
      startsWithChar (Path.read p) '/' = true →
      Path.to_uri p = some (fileTwoSlash ++ Path.read p)) ∧
    (startsWithChar (Path.read p) '/' = false →
      Path.to_uri p = some (fileThreeSlash ++ Path.read p)) := by
  refine ⟨?_, ?_, ?_⟩
  · intro rest h
    have hpre : List.isPrefixOf rustcPfx p.read = true := by
      rw [h]
      exact List.isPrefixOf_iff_prefix.mpr ⟨rest, rfl⟩
    rw [to_uri_rustc p hpre, h]
    have hdrop : List.drop 7 (rustcPfx ++ rest) = rest := List.drop_left rustcPfx rest
    rw [hdrop]
  · intro hno hst
    have hpre : List.isPrefixOf rustcPfx p.read = false := by
      cases hb : List.isPrefixOf rustcPfx p.read
      · rfl
      · obtain ⟨t, ht⟩ := List.isPrefixOf_iff_prefix.mp hb
        exact absurd ⟨t, ht.symm⟩ hno
    rw [to_uri_not_rustc p hpre, if_pos hst]
  · intro hst
    have hpre : List.isPrefixOf rustcPfx p.read = false := by
      cases hb : List.isPrefixOf rustcPfx p.read
      · rfl
      · exact absurd (startsWithChar_of_rustc p.read hb) (by simp [hst])
    rw [to_uri_not_rustc p hpre, if_neg (by simp [hst])]

/-- Witness for claim C2: one concrete buffer per branch. -/
theorem to_uri_cases_witness :
    Path.to_uri ⟨Cow.owned (rustcPfx ++ ['a'])⟩ = some (githubBase ++ ['a']) ∧
    Path.to_uri ⟨Cow.owned ['/', 'e']⟩ =
      some (fileTwoSlash ++ Path.read ⟨Cow.owned ['/', 'e']⟩) ∧
    Path.to_uri ⟨Cow.owned ['C', ':']⟩ =
      some (fileThreeSlash ++ Path.read ⟨Cow.owned ['C', ':']⟩) :=
  ⟨(to_uri_cases ⟨Cow.owned (rustcPfx ++ ['a'])⟩).1 ['a'] rfl,
   (to_uri_cases ⟨Cow.owned ['/', 'e']⟩).2.1
     (by
       rintro ⟨rest, h⟩
       exact absurd (List.isPrefixOf_iff_prefix.mpr ⟨rest, h.symm⟩) (by decide))
     rfl,
   (to_uri_cases ⟨Cow.owned ['C', ':']⟩).2.2 rfl⟩

/-- Claim C3: `is_absolute` holds exactly for a string starting with `'/'`, a
string whose first character is an ASCII letter followed by `':'`, or a string
whose first two characters are both `'\\'`; in particular it is false for the
empty string and for a lone `'\\'`. -/
theorem is_absolute_characterization :
    (∀ s : List Char, is_absolute s = true ↔
      (∃ t, s = '/' :: t) ∨
      (∃ c t, s = c :: ':' :: t ∧ isAsciiAlpha c = true) ∨
      (∃ t, s = '\\' :: '\\' :: t)) ∧
    is_absolute [] = false ∧
    is_absolute ['\\'] = false :=
  ⟨absolute_iff, by decide, by decide⟩

/-- Claim C4: pushing an absolute segment replaces the whole buffer; the
resulting `Cow` is the pushed one and the text read afterwards is exactly the
segment's text. -/
theorem push_absolute_replaces (p : Path) (seg : Cow)
    (h : is_absolute seg.read = true) :
    Path.push p seg = ⟨seg⟩ ∧ (Path.push p seg).read = seg.read := by
  unfold Path.push
  rw [if_pos h]
  exact ⟨rfl, rfl⟩

/-- Witness for claim C4 at the buffer `"C:"` and the segment `"/h"`. -/
theorem push_absolute_replaces_witness :
    is_absolute (Cow.read (Cow.owned ['/', 'h'])) = true ∧
    Path.push ⟨Cow.owned ['C', ':']⟩ (Cow.owned ['/', 'h']) =
      ⟨Cow.owned ['/', 'h']⟩ ∧
    (Path.push ⟨Cow.owned ['C', ':']⟩ (Cow.owned ['/', 'h'])).read =
      Cow.read (Cow.owned ['/', 'h']) :=
  ⟨by decide,
   push_absolute_replaces ⟨Cow.owned ['C', ':']⟩ (Cow.owned ['/', 'h']) (by decide)⟩

/-- Claim C5: the absolute-buffer invariant is established by `Path.new` and
preserved by every `Path.push`, whether the segment is absolute (replacement
by an absolute string) or relative (the absolute leading characters are
untouched by the append). -/
theorem absolute_invariant_holds :
    (∀ c p, Path.new c = some p → is_absolute (Path.read p) = true) ∧
    (∀ (p : Path) (seg : Cow), is_absolute (Path.read p) = true →
      is_absolute (Path.read (Path.push p seg)) = true) := by
  constructor
  · intro c p h
    unfold Path.new at h
    by_cases hc : is_absolute c.read = true
    · rw [if_pos hc] at h
      cases h
      exact hc
    · rw [if_neg hc] at h
      cases h
  · intro p seg h
    exact push_preserves_absolute p seg h

/-- Witness for claim C5: construction from `"/q"` and a push of `"x"` onto
`"/"`. -/
theorem absolute_invariant_holds_witness :
    is_absolute (Path.read ⟨Cow.owned ['/', 'q']⟩) = true ∧
    is_absolute (Path.read (Path.push ⟨Cow.owned ['/']⟩ (Cow.owned ['x']))) = true :=
  ⟨absolute_invariant_holds.1 (Cow.owned ['/', 'q']) ⟨Cow.owned ['/', 'q']⟩ (by decide),
   absolute_invariant_holds.2 ⟨Cow.owned ['/']⟩ (Cow.owned ['x']) (by decide)⟩


/-- Claim C6: `Path.new` fails (the modelled assertion panic, `none`) exactly
when `is_absolute` of the input text is false, and on an absolute input it
succeeds holding that exact text; in this development `Path.new` is the only
operation whose result models a failure raised on the caller's input. -/
theorem new_assert_spec (c : Cow) :
    (Path.new c = none ↔ is_absolute (Cow.read c) = false) ∧
    (is_absolute (Cow.read c) = true → Path.new c = some ⟨c⟩) ∧
    (∀ p, Path.new c = some p → Path.cow p = c) := by
  by_cases hc : is_absolute c.read = true
  · refine ⟨⟨?_, ?_⟩, ?_, ?_⟩
    · intro h
      unfold Path.new at h
      rw [if_pos hc] at h
      cases h
    · intro h
      rw [hc] at h
      cases h
    · intro _
      unfold Path.new
      rw [if_pos hc]
    · intro p h
      unfold Path.new at h
      rw [if_pos hc] at h
      cases h
      rfl
  · have hc2 : is_absolute c.read = false := eq_false_of_ne_true hc
    refine ⟨⟨?_, ?_⟩, ?_, ?_⟩
    · intro _
      exact hc2
    · intro _
      unfold Path.new
      rw [if_neg hc]
    · intro h
      exact absurd h hc
    · intro p h
      unfold Path.new at h
      rw [if_neg hc] at h
      cases h

/-- Witness for claim C6: success on `"a:"` and failure on `"a"`. -/
theorem new_assert_spec_witness :
    Path.new (Cow.owned ['a', ':']) = some ⟨Cow.owned ['a', ':']⟩ ∧
    (Path.new (Cow.owned ['a']) = none ↔
      is_absolute (Cow.read (Cow.owned ['a'])) = false) :=
  ⟨(new_assert_spec (Cow.owned ['a', ':'])).2.1 (by decide),
   (new_assert_spec (Cow.owned ['a'])).1⟩

/-- Claim C7: `Path.borrow` yields a read-only alias holding the same text
without copying (`Cow.borrowed` of the current buffer); a push on the alias
first copies the shared text into a private `Cow.owned` buffer before
mutating, and a push on the original (state-passing on the original
component) leaves the string observed through the alias unchanged. -/
theorem borrow_alias_independence (p : Path) (seg : Cow) :
    (Path.borrow p).cow = Cow.borrowed (Path.read p) ∧
    Path.read (Path.borrow p) = Path.read p ∧
    (is_absolute (Cow.read seg) = false →
      (Path.push (Path.borrow p) seg).cow =
        Cow.owned (pushSep (Path.read p) ++ Cow.read seg)) ∧
    Path.read (pushFst (p, Path.borrow p) seg).2 = Path.read p := by
  refine ⟨rfl, rfl, ?_, rfl⟩
  intro h
  unfold Path.push
  rw [if_neg (by simp [h])]
  rfl

/-- Witness for claim C7 at the buffer `"/a"` and the segment `"b"`. -/
theorem borrow_alias_independence_witness :
    is_absolute (Cow.read (Cow.owned ['b'])) = false ∧
    (Path.push (Path.borrow ⟨Cow.owned ['/', 'a']⟩) (Cow.owned ['b'])).cow =
      Cow.owned (pushSep (Path.read ⟨Cow.owned ['/', 'a']⟩) ++
        Cow.read (Cow.owned ['b'])) ∧
    Path.read
        (pushFst (⟨Cow.owned ['/', 'a']⟩, Path.borrow ⟨Cow.owned ['/', 'a']⟩)
          (Cow.owned ['b'])).2 =
      Path.read ⟨Cow.owned ['/', 'a']⟩ :=
  ⟨by decide,
   (borrow_alias_independence ⟨Cow.owned ['/', 'a']⟩ (Cow.owned ['b'])).2.2.1
     (by decide),
   (borrow_alias_independence ⟨Cow.owned ['/', 'a']⟩ (Cow.owned ['b'])).2.2.2⟩

/-- Claim C8: `Path.push`, `Path.borrow` and `Path.to_uri` are total: for any
path and any segment each produces a result, and `Path.to_uri` never reaches
its failure (`none`) case, before or after a push. -/
theorem ops_never_fail (p : Path) (seg : Cow) :
    (∃ u, Path.to_uri p = some u) ∧
    (∃ q, Path.push p seg = q) ∧
    (∃ q, Path.borrow p = q) ∧
    (∃ u, Path.to_uri (Path.push p seg) = some u) :=
  ⟨to_uri_total p, ⟨_, rfl⟩, ⟨_, rfl⟩, to_uri_total (Path.push p seg)⟩

/-- Claim C9: the empty segment is not absolute, so pushing it appends the
buffer's style separator exactly when the buffer does not already end with
it (and leaves the buffer unchanged when it does), and the buffer stays
absolute. -/
theorem push_empty_segment (p : Path) (seg : Cow)
    (hs : Cow.read seg = []) (habs : is_absolute (Path.read p) = true) :
    is_absolute (Cow.read seg) = false ∧
    (Path.push p seg).read =
      (if startsWithChar (Path.read p) '/' then
        (if endsWithChar (Path.read p) '/' then Path.read p
         else Path.read p ++ ['/'])
      else
        (if endsWithChar (Path.read p) '\\' then Path.read p
         else Path.read p ++ ['\\'])) ∧
    is_absolute ((Path.push p seg).read) = true := by
  have h0 : is_absolute seg.read = false := by rw [hs]; rfl
  refine ⟨h0, ?_, push_preserves_absolute p seg habs⟩
  rw [push_read_rel p seg h0, hs, List.append_nil]
  rfl

/-- Witness for claim C9: the empty segment pushed onto `"/"`, which already
ends with its separator. -/
theorem push_empty_segment_witness :
    is_absolute (Cow.read (Cow.owned ([] : List Char))) = false ∧
    (Path.push ⟨Cow.owned ['/']⟩ (Cow.owned [])).read =
      (if startsWithChar (Path.read ⟨Cow.owned ['/']⟩) '/' then
        (if endsWithChar (Path.read ⟨Cow.owned ['/']⟩) '/' then
          Path.read ⟨Cow.owned ['/']⟩
        else Path.read ⟨Cow.owned ['/']⟩ ++ ['/'])
      else
        (if endsWithChar (Path.read ⟨Cow.owned ['/']⟩) '\\' then
          Path.read ⟨Cow.owned ['/']⟩
        else Path.read ⟨Cow.owned ['/']⟩ ++ ['\\'])) ∧
    is_absolute ((Path.push ⟨Cow.owned ['/']⟩ (Cow.owned [])).read) = true :=
  push_empty_segment ⟨Cow.owned ['/']⟩ (Cow.owned []) rfl (by decide)

/-- Claim C10: the unchecked slice inside the prefix-stripping function is
always in bounds (the undefined-behavior case `none` is unreachable), when the
sought text is a leading piece the result is the drop of its length, and the
`"/rustc/"` branch of `Path.to_uri` yields exactly the buffer with its first
7 characters removed. -/
theorem strip_unchecked_safe (p pre : List Char) :
    stripPfx p pre ≠ none ∧
    (List.isPrefixOf pre p = true →
      stripPfx p pre = some (some (List.drop (List.length pre) p))) ∧
    (∀ q : Path, List.isPrefixOf rustcPfx (Path.read q) = true →
      Path.to_uri q = some (githubBase ++ List.drop 7 (Path.read q))) :=
  ⟨stripPfx_ne_none p pre, stripPfx_pos p pre, fun q hq => to_uri_rustc q hq⟩

/-- Witness for claim C10 at the buffer `"/rustc/z"`. -/
theorem strip_unchecked_safe_witness :
    stripPfx (rustcPfx ++ ['z']) rustcPfx ≠ none ∧
    stripPfx (rustcPfx ++ ['z']) rustcPfx =
      some (some (List.drop (List.length rustcPfx) (rustcPfx ++ ['z']))) ∧
    Path.to_uri ⟨Cow.owned (rustcPfx ++ ['z'])⟩ =
      some (githubBase ++ List.drop 7 (Path.read ⟨Cow.owned (rustcPfx ++ ['z'])⟩)) :=
  ⟨(strip_unchecked_safe (rustcPfx ++ ['z']) rustcPfx).1,
   (strip_unchecked_safe (rustcPfx ++ ['z']) rustcPfx).2.1 (by decide),
   (strip_unchecked_safe (rustcPfx ++ ['z']) rustcPfx).2.2
     ⟨Cow.owned (rustcPfx ++ ['z'])⟩ (by decide)⟩


end Wsm
